import Mathlib

/-!
Verification of the silence-cutting backend (src/backend/main.py).

The core under study is `get_non_silent_chunks`: pydub's `detect_silence`
returns a list of `(start_ms, end_ms)` integer millisecond intervals; the
function inverts that list against the full audio length and converts the
result to seconds by dividing by 1000.  The host route `process_video`
maps the form field `threshold` (default 30) to a decibel threshold via
`-70 + threshold_percent`, fixes `min_silence_len_ms = 500`, and rejects
an empty keep-interval list with an error response.

External collaborators (file decoding, pydub's detector, moviepy assembly)
are modelled as parameters: `detect` stands for `pydub.silence.detect_silence`
and a `Request` record carries the observable facts about one HTTP request.
-/

namespace SilenceCut

/-- The inversion loop of `get_non_silent_chunks` (main.py lines 36-43):
starting from the cursor `last_end_ms`, each silence chunk `(start_ms, end_ms)`
emits a keep chunk `(last_end_ms, start_ms)` when `start_ms > last_end_ms` and
moves the cursor to `end_ms`; after the loop, a final keep chunk
`(last_end_ms, audio_len_ms)` is emitted when `last_end_ms < len(audio)`.
All values are integer milliseconds, as returned by pydub. -/
def invert_silence (last_end_ms audio_len_ms : ℕ) : List (ℕ × ℕ) → List (ℕ × ℕ)
  | [] =>
      if last_end_ms < audio_len_ms then [(last_end_ms, audio_len_ms)] else []
  | ch :: rest =>
      (if last_end_ms < ch.1 then [(last_end_ms, ch.1)] else []) ++
        invert_silence ch.2 audio_len_ms rest

/-- Millisecond-to-second conversion applied to each emitted pair
(the two `/ 1000.0` divisions at main.py lines 39 and 43). -/
def msToSec (p : ℕ × ℕ) : ℚ × ℚ := ((p.1 : ℚ) / 1000, (p.2 : ℚ) / 1000)

/-- `get_non_silent_chunks` (main.py lines 16-46) after the external call to
`detect_silence`: if no silence chunk was detected it returns the single
chunk `(0, len(audio)/1000.0)` (lines 30-32); otherwise it inverts the
silence list and converts to seconds. `audio_len_ms` is `len(audio)` in
milliseconds, `silence_chunks` is the detector's output. -/
def get_non_silent_chunks (audio_len_ms : ℕ) (silence_chunks : List (ℕ × ℕ)) :
    List (ℚ × ℚ) :=
  if silence_chunks = [] then [((0 : ℚ), (audio_len_ms : ℚ) / 1000)]
  else (invert_silence 0 audio_len_ms silence_chunks).map msToSec

/-- The threshold mapping at main.py line 59: `silence_thresh_db = -70 + threshold_percent`. -/
def silence_thresh_db (threshold_percent : ℚ) : ℚ := -70 + threshold_percent

/-- The fixed minimum silence length (main.py line 60). -/
def min_silence_len_ms : ℕ := 500

/-- Outcome of one `/process` request, as observable by the client:
the three explicit 400 responses of `process_video` or the success path
carrying the keep-interval list handed to clip assembly. -/
inductive ProcResult where
  | errNoVideo : ProcResult
  | errNoAudioTrack : ProcResult
  | errNoAudioDetected : ProcResult
  | ok : List (ℚ × ℚ) → ProcResult
deriving DecidableEq

/-- Observable facts about one `/process` request: whether a `video` file is
attached, the parsed numeric `threshold` form field when present, whether the
uploaded video has an audio track, and the extracted audio length in ms. -/
structure Request where
  hasVideo : Bool
  thresholdField : Option ℚ
  hasAudioTrack : Bool
  audioLenMs : ℕ
deriving DecidableEq

/-- The control flow of `process_video` (main.py lines 48-85) up to clip
assembly.  `detect` abstracts `pydub.silence.detect_silence`, taking the
audio length, `min_silence_len` and `silence_thresh` in the order of the
call at main.py lines 24-28.  The route checks the `video` file, reads the
`threshold` field with default 30, maps it to decibels, requires an audio
track, computes the keep chunks, and returns an error when the list is
empty (lines 82-83); otherwise the chunks go to subclip extraction. -/
def process_video (detect : ℕ → ℕ → ℚ → List (ℕ × ℕ)) (req : Request) :
    ProcResult :=
  if req.hasVideo = false then ProcResult.errNoVideo
  else
    let threshold_percent : ℚ := req.thresholdField.getD 30
    let thresh : ℚ := silence_thresh_db threshold_percent
    if req.hasAudioTrack = false then ProcResult.errNoAudioTrack
    else
      let non_silent_timestamps :=
        get_non_silent_chunks req.audioLenMs
          (detect req.audioLenMs min_silence_len_ms thresh)
      if non_silent_timestamps = [] then ProcResult.errNoAudioDetected
      else ProcResult.ok non_silent_timestamps

/-- The `SilenceIntervalList` ordering invariant of the spec:
consecutive intervals satisfy `interval[i].end <= interval[i+1].start`. -/
def sortedNonOverlapping : List (ℕ × ℕ) → Bool
  | [] => true
  | [_] => true
  | p :: q :: rest => decide (p.2 ≤ q.1) && sortedNonOverlapping (q :: rest)

/-- The cursor is a lower bound for the head interval's start (trivial for
the empty list). -/
def lbOk (c : ℕ) : List (ℕ × ℕ) → Prop
  | [] => True
  | p :: _ => c ≤ p.1

/-- A millisecond instant `n` lies in the half-open interval `p`. -/
def coversN (n : ℕ) (p : ℕ × ℕ) : Bool := decide (p.1 ≤ n ∧ n < p.2)

/-- A rational instant `q` (in seconds) lies in the half-open interval `p`. -/
def coversQ (q : ℚ) (p : ℚ × ℚ) : Bool := decide (p.1 ≤ q ∧ q < p.2)

theorem sortedNonOverlapping_cons {hd : ℕ × ℕ} {tl : List (ℕ × ℕ)}
    (h : sortedNonOverlapping (hd :: tl) = true) :
    sortedNonOverlapping tl = true ∧ lbOk hd.2 tl := by
  cases tl with
  | nil => exact ⟨rfl, trivial⟩
  | cons q rest =>
      simp only [sortedNonOverlapping, Bool.and_eq_true, decide_eq_true_eq] at h
      exact ⟨h.2, h.1⟩

/-- Exact-cover counting lemma for the inversion loop: for a well-formed
silence list starting at or after the cursor `c`, every millisecond instant
`n` is covered exactly once by the emitted keep chunks together with the
silence chunks when `c ≤ n < D`, and never otherwise. -/
theorem invert_cover_count (D : ℕ) (l : List (ℕ × ℕ)) :
    ∀ (c n : ℕ),
      (∀ p ∈ l, p.1 < p.2 ∧ p.2 ≤ D) →
      sortedNonOverlapping l = true →
      lbOk c l →
      (invert_silence c D l ++ l).countP (coversN n)
        = if c ≤ n ∧ n < D then 1 else 0 := by
  induction l with
  | nil =>
      intro c n _ _ _
      simp only [invert_silence, List.append_nil]
      by_cases h : c < D
      · simp only [if_pos h, List.countP_cons, List.countP_nil, coversN,
          decide_eq_true_eq, Nat.zero_add]
      · simp only [if_neg h, List.countP_nil]
        split_ifs <;> omega
  | cons hd tl ih =>
      intro c n hwf hs hlb
      obtain ⟨hs', hlb'⟩ := sortedNonOverlapping_cons hs
      have hhd : hd.1 < hd.2 ∧ hd.2 ≤ D := hwf hd (List.mem_cons_self _ _)
      have hwf' : ∀ p ∈ tl, p.1 < p.2 ∧ p.2 ≤ D :=
        fun p hp => hwf p (List.mem_cons_of_mem _ hp)
      have IH := ih hd.2 n hwf' hs' hlb'
      rw [List.countP_append] at IH
      simp only [lbOk] at hlb
      simp only [invert_silence, List.countP_append, List.countP_cons,
        coversN, decide_eq_true_eq]
      by_cases hIH : hd.2 ≤ n ∧ n < D
      · rw [if_pos hIH] at IH
        by_cases hc : c < hd.1
        · rw [if_pos hc]
          simp only [List.countP_cons, List.countP_nil, coversN,
            decide_eq_true_eq, Nat.zero_add]
          split_ifs <;> omega
        · rw [if_neg hc]
          simp only [List.countP_nil]
          split_ifs <;> omega
      · rw [if_neg hIH] at IH
        by_cases hc : c < hd.1
        · rw [if_pos hc]
          simp only [List.countP_cons, List.countP_nil, coversN,
            decide_eq_true_eq, Nat.zero_add]
          split_ifs <;> omega
        · rw [if_neg hc]
          simp only [List.countP_nil]
          split_ifs <;> omega

/-- When at least one silence chunk was detected, or unconditionally for a
positive audio length, `get_non_silent_chunks` is the inversion loop followed
by the seconds conversion. -/
theorem get_non_silent_chunks_eq_map {D : ℕ} (hD : 0 < D)
    (silence : List (ℕ × ℕ)) :
    get_non_silent_chunks D silence =
      (invert_silence 0 D silence).map msToSec := by
  unfold get_non_silent_chunks
  split_ifs with h
  · subst h
    simp only [invert_silence, if_pos hD, List.map_cons, List.map_nil, msToSec]
    norm_num
  · rfl

/-- Covering a second-instant `q` by a converted chunk is covering the
millisecond instant `⌊1000 q⌋` by the original chunk. -/
theorem coversQ_msToSec (q : ℚ) (hq : 0 ≤ q) (p : ℕ × ℕ) :
    coversQ q (msToSec p) = coversN (⌊1000 * q⌋.toNat) p := by
  have h1000 : (0 : ℚ) < 1000 := by norm_num
  have hfl : (0 : ℤ) ≤ ⌊1000 * q⌋ := Int.floor_nonneg.mpr (by positivity)
  unfold coversQ coversN msToSec
  rw [decide_eq_decide]
  have ha : ((p.1 : ℚ) / 1000 ≤ q) ↔ p.1 ≤ ⌊1000 * q⌋.toNat := by
    rw [div_le_iff₀ h1000]
    rw [show ((p.1 : ℚ)) = ((p.1 : ℤ) : ℚ) from by push_cast; ring,
      show q * 1000 = 1000 * q from by ring, ← Int.le_floor]
    omega
  have hb : (q < (p.2 : ℚ) / 1000) ↔ ⌊1000 * q⌋.toNat < p.2 := by
    rw [lt_div_iff₀ h1000]
    rw [show ((p.2 : ℚ)) = ((p.2 : ℤ) : ℚ) from by push_cast; ring,
      show q * 1000 = 1000 * q from by ring, ← Int.floor_lt]
    omega
  rw [ha, hb]

/-- Structural facts about the inversion loop: every emitted chunk starts at
or after the cursor, has positive length, ends within the audio, and the
emitted chunks are pairwise ordered with no overlap. -/
theorem invert_silence_props (D : ℕ) (l : List (ℕ × ℕ)) :
    ∀ c : ℕ,
      (∀ p ∈ l, p.1 < p.2 ∧ p.2 ≤ D) →
      sortedNonOverlapping l = true →
      lbOk c l →
      (∀ p ∈ invert_silence c D l, c ≤ p.1 ∧ p.1 < p.2 ∧ p.2 ≤ D) ∧
      List.Pairwise (fun p r : ℕ × ℕ => p.2 ≤ r.1) (invert_silence c D l) := by
  induction l with
  | nil =>
      intro c _ _ _
      constructor
      · intro p hp
        simp only [invert_silence] at hp
        split_ifs at hp with h
        · simp only [List.mem_singleton] at hp
          subst hp
          exact ⟨le_refl _, h, le_refl _⟩
        · simp at hp
      · simp only [invert_silence]
        split_ifs <;> simp
  | cons hd tl ih =>
      intro c hwf hs hlb
      obtain ⟨hs', hlb'⟩ := sortedNonOverlapping_cons hs
      have hhd : hd.1 < hd.2 ∧ hd.2 ≤ D := hwf hd (List.mem_cons_self _ _)
      have hwf' : ∀ p ∈ tl, p.1 < p.2 ∧ p.2 ≤ D :=
        fun p hp => hwf p (List.mem_cons_of_mem _ hp)
      obtain ⟨ihmem, ihpw⟩ := ih hd.2 hwf' hs' hlb'
      simp only [lbOk] at hlb
      constructor
      · intro p hp
        simp only [invert_silence, List.mem_append] at hp
        rcases hp with hp | hp
        · split_ifs at hp with h
          · simp only [List.mem_singleton] at hp
            subst hp
            exact ⟨le_refl _, h, le_trans hhd.1.le hhd.2⟩
          · simp at hp
        · have hmem := ihmem p hp
          exact ⟨le_trans hlb (le_trans hhd.1.le hmem.1), hmem.2.1, hmem.2.2⟩
      · simp only [invert_silence]
        split_ifs with h
        · rw [List.singleton_append]
          exact List.Pairwise.cons
            (fun r hr => le_trans hhd.1.le (ihmem r hr).1) ihpw
        · rw [List.nil_append]
          exact ihpw

/-- C1: for `D > 0` and a sorted, non-overlapping silence list contained in
`[0, D]`, every instant `q` of `[0, D)` (in seconds) is covered exactly once
by the keep chunks of `get_non_silent_chunks` together with the silence
chunks: no gap and no double coverage. -/
theorem C1_inversion_exact_cover (D : ℕ) (silence : List (ℕ × ℕ)) (q : ℚ)
    (hD : 0 < D)
    (hwf : ∀ p ∈ silence, p.1 < p.2 ∧ p.2 ≤ D)
    (hsorted : sortedNonOverlapping silence = true)
    (hq0 : 0 ≤ q) (hqD : q < (D : ℚ) / 1000) :
    (get_non_silent_chunks D silence ++ silence.map msToSec).countP
      (coversQ q) = 1 := by
  rw [get_non_silent_chunks_eq_map hD, ← List.map_append, List.countP_map]
  have hfun : (coversQ q ∘ msToSec) = coversN (⌊1000 * q⌋.toNat) := by
    funext p
    exact coversQ_msToSec q hq0 p
  have hlb0 : lbOk 0 silence := by
    cases silence <;> simp [lbOk]
  rw [hfun, invert_cover_count D silence 0 (⌊1000 * q⌋.toNat) hwf hsorted hlb0]
  have hnD : ⌊1000 * q⌋.toNat < D := by
    rw [lt_div_iff₀ (by norm_num : (0 : ℚ) < 1000)] at hqD
    have h1 : 1000 * q < ((D : ℤ) : ℚ) := by
      push_cast
      linarith
    have h2 : ⌊1000 * q⌋ < (D : ℤ) := Int.floor_lt.mpr h1
    omega
  rw [if_pos ⟨Nat.zero_le _, hnD⟩]

/-- Witness for C1 at `D = 10000` ms, silence `[(2000, 3000)]`, `q = 5/2` s
(an instant inside the silence chunk). -/
theorem C1_inversion_exact_cover_witness :
    (get_non_silent_chunks 10000 [(2000, 3000)] ++
        ([((2000 : ℕ), (3000 : ℕ))]).map msToSec).countP
      (coversQ (5 / 2)) = 1 :=
  C1_inversion_exact_cover 10000 [(2000, 3000)] (5 / 2) (by decide)
    (by decide) (by decide) (by norm_num) (by norm_num)

/-- C3: inverting a silence list that is exactly `[(0, D)]` yields no keep
chunk: `get_non_silent_chunks D [(0, D)] = []`. -/
theorem C3_full_coverage_empty (D : ℕ) (hD : 0 < D) :
    get_non_silent_chunks D [(0, D)] = [] := by
  simp [get_non_silent_chunks, invert_silence]

/-- Witness for C3 at `D = 5000` ms. -/
theorem C3_full_coverage_empty_witness :
    get_non_silent_chunks 5000 [(0, 5000)] = [] :=
  C3_full_coverage_empty 5000 (by decide)

/-- C4: with an empty detected-silence list the core returns the single keep
interval `(0, D/1000)` spanning the whole timeline, and `process_video`
treats it as a normal success, not an error. -/
theorem C4_empty_silence_identity (D : ℕ) (hD : 0 < D) :
    get_non_silent_chunks D [] = [((0 : ℚ), (D : ℚ) / 1000)] ∧
    ∀ detect : ℕ → ℕ → ℚ → List (ℕ × ℕ),
      (∀ len ms th, detect len ms th = []) →
      process_video detect ⟨true, none, true, D⟩ =
        ProcResult.ok [((0 : ℚ), (D : ℚ) / 1000)] := by
  refine ⟨rfl, fun detect hdet => ?_⟩
  simp [process_video, hdet, get_non_silent_chunks]

/-- Witness for C4 at `D = 5000` ms with the trivial detector. -/
theorem C4_empty_silence_identity_witness :
    get_non_silent_chunks 5000 [] = [((0 : ℚ), (5000 : ℚ) / 1000)] ∧
    process_video (fun _ _ _ => []) ⟨true, none, true, 5000⟩ =
      ProcResult.ok [((0 : ℚ), (5000 : ℚ) / 1000)] :=
  ⟨(C4_empty_silence_identity 5000 (by decide)).1,
    (C4_empty_silence_identity 5000 (by decide)).2 (fun _ _ _ => [])
      (fun _ _ _ => rfl)⟩

/-- C5: the detection threshold is `-70 + p` for every sensitivity percent
`p` (hence deterministic), giving `-40`, `-60`, `-20` at `p = 30, 10, 50`,
and the minimum silence length is the fixed constant 500 ms. -/
theorem C5_threshold_mapping :
    (∀ p : ℚ, silence_thresh_db p = -70 + p) ∧
    silence_thresh_db 30 = -40 ∧
    silence_thresh_db 10 = -60 ∧
    silence_thresh_db 50 = -20 ∧
    min_silence_len_ms = 500 := by
  refine ⟨fun p => rfl, ?_, ?_, ?_, rfl⟩ <;> norm_num [silence_thresh_db]

/-- C6: for a sorted, non-overlapping silence list contained in `[0, D]`,
the keep intervals returned by `get_non_silent_chunks` are strictly
ascending by start time and mutually non-overlapping. -/
theorem C6_keep_sorted_nonoverlap (D : ℕ) (silence : List (ℕ × ℕ))
    (hD : 0 < D)
    (hwf : ∀ p ∈ silence, p.1 < p.2 ∧ p.2 ≤ D)
    (hsorted : sortedNonOverlapping silence = true) :
    List.Pairwise (fun p r : ℚ × ℚ => p.1 < r.1)
      (get_non_silent_chunks D silence) ∧
    List.Pairwise (fun p r : ℚ × ℚ => p.2 ≤ r.1)
      (get_non_silent_chunks D silence) := by
  rw [get_non_silent_chunks_eq_map hD]
  have hlb0 : lbOk 0 silence := by
    cases silence <;> simp [lbOk]
  obtain ⟨hmem, hpw⟩ := invert_silence_props D silence 0 hwf hsorted hlb0
  constructor
  · have hpw' : List.Pairwise (fun p r : ℕ × ℕ => p.1 < r.1)
        (invert_silence 0 D silence) :=
      List.Pairwise.imp_of_mem
        (fun ha _ hab => lt_of_lt_of_le (hmem _ ha).2.1 hab) hpw
    refine hpw'.map msToSec (fun a b h => ?_)
    simp only [msToSec]
    rw [div_lt_div_iff_of_pos_right (by norm_num : (0 : ℚ) < 1000)]
    exact_mod_cast h
  · refine hpw.map msToSec (fun a b h => ?_)
    simp only [msToSec]
    rw [div_le_div_iff_of_pos_right (by norm_num : (0 : ℚ) < 1000)]
    exact_mod_cast h

/-- Witness for C6 at `D = 10000` ms, silence `[(2000, 3000)]`. -/
theorem C6_keep_sorted_nonoverlap_witness :
    List.Pairwise (fun p r : ℚ × ℚ => p.1 < r.1)
      (get_non_silent_chunks 10000 [(2000, 3000)]) ∧
    List.Pairwise (fun p r : ℚ × ℚ => p.2 ≤ r.1)
      (get_non_silent_chunks 10000 [(2000, 3000)]) :=
  C6_keep_sorted_nonoverlap 10000 [(2000, 3000)] (by decide) (by decide)
    (by decide)

/-- C7: for a well-formed silence list (sorted, non-overlapping, contained
in `[0, D]`), no emitted keep interval has negative duration and no emitted
keep interval ends after the total duration `D/1000` seconds, even when a
silence interval ends exactly at `D`. -/
theorem C7_keep_bounds (D : ℕ) (silence : List (ℕ × ℕ))
    (hwf : ∀ p ∈ silence, p.1 < p.2 ∧ p.2 ≤ D)
    (hsorted : sortedNonOverlapping silence = true) :
    ∀ p ∈ get_non_silent_chunks D silence,
      0 ≤ p.2 - p.1 ∧ p.2 ≤ (D : ℚ) / 1000 := by
  intro p hp
  unfold get_non_silent_chunks at hp
  split_ifs at hp with h
  · simp only [List.mem_singleton] at hp
    subst hp
    constructor
    · simp only [sub_zero]
      positivity
    · exact le_refl _
  · have hlb0 : lbOk 0 silence := by
      cases silence <;> simp [lbOk]
    obtain ⟨hmem, -⟩ := invert_silence_props D silence 0 hwf hsorted hlb0
    simp only [List.mem_map] at hp
    obtain ⟨r, hr, rfl⟩ := hp
    obtain ⟨-, hlt, hle⟩ := hmem r hr
    constructor
    · simp only [msToSec, sub_nonneg]
      rw [div_le_div_iff_of_pos_right (by norm_num : (0 : ℚ) < 1000)]
      exact_mod_cast hlt.le
    · simp only [msToSec]
      rw [div_le_div_iff_of_pos_right (by norm_num : (0 : ℚ) < 1000)]
      exact_mod_cast hle

/-- Witness for C7 at `D = 10000` ms with a silence interval ending exactly
at `D`: the single keep chunk `msToSec (0, 2000)` has non-negative duration
and ends within the total duration. -/
theorem C7_keep_bounds_witness :
    0 ≤ (msToSec (0, 2000)).2 - (msToSec (0, 2000)).1 ∧
    (msToSec (0, 2000)).2 ≤ ((10000 : ℕ) : ℚ) / 1000 :=
  C7_keep_bounds 10000 [(2000, 10000)] (by decide) (by decide)
    (msToSec (0, 2000)) (by simp [get_non_silent_chunks, invert_silence])

/-- C2 fails on the code: `process_video` performs no clamping and no range
validation of the `threshold` field.  With the out-of-range value 200 the
request succeeds, and the detector is invoked with threshold `130 = -70 + 200`
(the detector below returns no silence exactly when called with 130, and the
request indeed succeeds with the full-length keep chunk). -/
theorem C2_counterexample :
    ¬ ((10 : ℚ) ≤ 200 ∧ (200 : ℚ) ≤ 50) ∧
    silence_thresh_db 200 = 130 ∧
    process_video (fun _ _ th => if th = 130 then [] else [(0, 1000)])
        ⟨true, some 200, true, 1000⟩ =
      ProcResult.ok [((0 : ℚ), 1)] := by
  refine ⟨by norm_num, by norm_num [silence_thresh_db], ?_⟩
  norm_num [process_video, silence_thresh_db, get_non_silent_chunks]

/-- C2 amended: the sensitivity percent taken from the form is mapped by
`threshold_dB = -70 + p` with no clamping and no range validation; every
numeric value, inside or outside 10-50, is mapped and passed to the
detector, and the request is never rejected for it. -/
theorem C2_no_validation (p : ℚ) :
    silence_thresh_db p = -70 + p ∧
    process_video
        (fun _ _ th => if th = silence_thresh_db p then [] else [(0, 1000)])
        ⟨true, some p, true, 1000⟩ =
      ProcResult.ok [((0 : ℚ), 1)] := by
  refine ⟨rfl, ?_⟩
  norm_num [process_video, get_non_silent_chunks]

/-- C8 fails on the code: a zero-duration timeline is not rejected.  With an
empty audio and no detected silence, `get_non_silent_chunks` returns the
degenerate keep chunk `(0, 0)` and `process_video` proceeds to assembly with
it instead of raising an input-validation error. -/
theorem C8_counterexample :
    get_non_silent_chunks 0 [] = [((0 : ℚ), 0)] ∧
    process_video (fun _ _ _ => []) ⟨true, none, true, 0⟩ =
      ProcResult.ok [((0 : ℚ), 0)] := by
  constructor <;>
    norm_num [get_non_silent_chunks, process_video, silence_thresh_db]

/-- C8 amended: the core never raises an input-validation error for an
empty/zero-duration timeline; a request carrying zero-length audio flows
through the normal paths of `process_video` and ends either in the
empty-keep-list error response or in a success carrying the computed keep
chunks. -/
theorem C8_no_rejection (detect : ℕ → ℕ → ℚ → List (ℕ × ℕ)) :
    process_video detect ⟨true, none, true, 0⟩ =
        ProcResult.errNoAudioDetected ∨
    process_video detect ⟨true, none, true, 0⟩ =
      ProcResult.ok (get_non_silent_chunks 0
        (detect 0 min_silence_len_ms (silence_thresh_db 30))) := by
  by_cases h : get_non_silent_chunks 0
      (detect 0 min_silence_len_ms (silence_thresh_db 30)) = []
  · left
    simp [process_video, Option.getD, h]
  · right
    simp [process_video, Option.getD, h]

/-- C9: `process_video` never hands an empty keep-interval list to clip
assembly; whenever the computed keep list is empty (and the earlier gates
passed), the request ends in the explicit error response. -/
theorem C9_empty_keep_is_error (detect : ℕ → ℕ → ℚ → List (ℕ × ℕ))
    (req : Request) :
    process_video detect req ≠ ProcResult.ok [] ∧
    (req.hasVideo = true → req.hasAudioTrack = true →
      get_non_silent_chunks req.audioLenMs
          (detect req.audioLenMs min_silence_len_ms
            (silence_thresh_db (req.thresholdField.getD 30))) = [] →
      process_video detect req = ProcResult.errNoAudioDetected) := by
  constructor
  · simp only [process_video]
    split_ifs with h1 h2 h3 <;> simp_all
  · intro hv ha hempty
    simp only [process_video, hv, ha, hempty]
    simp

/-- Witness for C9: a detector reporting the whole audio as silence leads to
the explicit error response, not to assembly. -/
theorem C9_empty_keep_is_error_witness :
    process_video (fun _ _ _ => [(0, 5000)]) ⟨true, none, true, 5000⟩ =
        ProcResult.errNoAudioDetected ∧
    process_video (fun _ _ _ => [(0, 5000)]) ⟨true, none, true, 5000⟩ ≠
      ProcResult.ok [] :=
  ⟨(C9_empty_keep_is_error (fun _ _ _ => [(0, 5000)])
      ⟨true, none, true, 5000⟩).2 rfl rfl (by decide),
    (C9_empty_keep_is_error (fun _ _ _ => [(0, 5000)])
      ⟨true, none, true, 5000⟩).1⟩

/-- C10: with the `threshold` form field absent, the default 30 is used, so
the detector is invoked with threshold `-40` dB and the request succeeds.
The detector below returns no silence exactly when called with `-40`, so the
success result proves that `-40` was the threshold actually passed. -/
theorem C10_default_threshold :
    silence_thresh_db ((none : Option ℚ).getD 30) = -40 ∧
    process_video (fun _ _ th => if th = -40 then [] else [(0, 1000)])
        ⟨true, none, true, 1000⟩ =
      ProcResult.ok [((0 : ℚ), 1)] := by
  constructor
  · norm_num [silence_thresh_db]
  · norm_num [process_video, silence_thresh_db, get_non_silent_chunks]

end SilenceCut
